import Mathlib

/-!
Shallow embedding of the AI-tutor render-backend core
(app/services/validation_service.py, app/services/job_store.py,
app/services/render_service.py) and proofs about it.

Strings are modelled as `List Char` (ASCII fragment of Python `str`);
real-valued clock times as `ℚ`; fallible Python functions that `raise`
as `Except (List Char)`.
-/

namespace AITutor

/-- Python whitespace for `str.strip` and the regex class `\s`
(ASCII fragment: space, tab, newline, carriage return, vertical tab, form feed). -/
def isPySpace (c : Char) : Bool :=
  c = ' ' || c = '\t' || c = '\n' || c = '\r' || c = '\x0b' || c = '\x0c'

/-- Python `str.strip()`: drop whitespace from both ends. -/
def pyStrip (s : List Char) : List Char :=
  ((s.dropWhile isPySpace).reverse.dropWhile isPySpace).reverse

/-- Python `str.lower()` (ASCII fragment). -/
def pyLower (s : List Char) : List Char :=
  s.map Char.toLower

/-- The regex class `\w` (ASCII fragment): letters, digits, underscore. -/
def isWordChar (c : Char) : Bool :=
  c.isAlphanum || c = '_'

/-- Leftmost-match regex search: try a position matcher at every suffix,
left to right, returning the first hit (models `re.search`). -/
def searchFirst (f : List Char → Option (List Char)) : List Char → Option (List Char)
  | [] => f []
  | c :: cs =>
    match f (c :: cs) with
    | some r => some r
    | none => searchFirst f cs

/-! ## ValidationService (app/services/validation_service.py) -/

/-- The set DANGEROUS_IMPORTS from validation_service.py (membership only; the
Python object is a set). -/
def dangerousImports : List (List Char) :=
  ["os".toList, "sys".toList, "subprocess".toList, "importlib".toList,
   "exec".toList, "eval".toList, "open".toList, "file".toList,
   "__import__".toList, "globals".toList, "locals".toList,
   "compile".toList, "execfile".toList, "input".toList, "raw_input".toList]

/-- The set DANGEROUS_KEYWORDS from validation_service.py (the Python object is a
set; listed here in source order — only membership matters except for which
message is reported when several match). -/
def dangerousKeywords : List (List Char) :=
  ["exec(".toList, "eval(".toList, "compile(".toList, "__import__(".toList,
   "globals(".toList, "locals(".toList, "vars(".toList, "dir(".toList,
   "getattr(".toList, "setattr(".toList, "delattr(".toList, "hasattr(".toList,
   "input(".toList, "raw_input(".toList]

/-- One attempt of the import regex
`(?:^|\n)\s*(?:import|from)\s+([^\s\n]+)` at the current position.
`anchored` says the position is the string start or just after a newline
(where the zero-width `^` branch applies under `re.MULTILINE`); otherwise
only the literal-newline branch can fire. Returns the captured group and
the rest of the input after the match. -/
def importMatchAt (anchored : Bool) (cs : List Char) : Option (List Char × List Char) :=
  let body := fun (rest : List Char) =>
    let r2 := rest.dropWhile isPySpace
    let tryKw := fun (kw : List Char) =>
      if kw.isPrefixOf r2 then
        let r3 := r2.drop kw.length
        match r3 with
        | c :: _ =>
          if isPySpace c then
            let r4 := r3.dropWhile isPySpace
            let tok := r4.takeWhile (fun d => !(isPySpace d))
            if tok.isEmpty then none else some (tok, r4.drop tok.length)
          else none
        | [] => none
      else none
    (tryKw "import".toList).orElse (fun _ => tryKw "from".toList)
  if anchored then body cs
  else
    match cs with
    | '\n' :: rest => body rest
    | _ => none

/-- Non-overlapping left-to-right scan with the import regex, as
`re.findall` does: on a match, resume right after it (never again at a
line start, since the capture ends in a non-whitespace character);
on failure advance one character. Fuel bounds the recursion. -/
def importScan : Nat → Bool → List Char → List (List Char)
  | 0, _, _ => []
  | _ + 1, _, [] => []
  | n + 1, anchored, c :: cs =>
    match importMatchAt anchored (c :: cs) with
    | some (tok, rest) => tok :: importScan n false rest
    | none => importScan n (c = '\n') cs

/-- The call re.findall of the import pattern (with re.MULTILINE) in
`validate_code`, returning the captured module tokens in order. -/
def findImports (lower : List Char) : List (List Char) :=
  importScan (lower.length + 1) true lower

/-- The per-import check in `validate_code`: `imp.split('.')[0].strip()`
then membership in `DANGEROUS_IMPORTS`; returns the first flagged raw
token, which is what the error message reports. -/
def findDangerousImport (lower : List Char) : Option (List Char) :=
  (findImports lower).find? (fun imp =>
    dangerousImports.contains (pyStrip (imp.takeWhile (fun c => c ≠ '.'))))

/-- One file-operation pattern `lit` stands for the regex `lit\s*\(`
(`open\s*\(` etc.); this tests a match starting exactly at the head of `cs`. -/
def filePatMatchAt (lit : List Char) (cs : List Char) : Bool :=
  lit.isPrefixOf cs && ((cs.drop lit.length).dropWhile isPySpace).head? = some '('

/-- The re.search of a file-operation pattern: some position matches. -/
def filePatFound (lit : List Char) (cs : List Char) : Bool :=
  (List.range (cs.length + 1)).any (fun i => filePatMatchAt lit (cs.drop i))

/-- The literal stems of `file_patterns` in `validate_code`
(each used as `stem\s*\(`). -/
def filePatterns : List (List Char) :=
  ["open".toList, "file".toList, ".write".toList, ".read".toList, ".readlines".toList]

/-- The list network_patterns in `validate_code`; each is a plain substring test. -/
def networkPatterns : List (List Char) :=
  ["urllib".toList, "requests".toList, "http".toList, "socket".toList, "urllib2".toList]

/-- Python substring containment, the `in` operator on strings
(`keyword in code_lower` and the marker checks). -/
def infixOf (s : List Char) : List Char → Bool
  | [] => s.isEmpty
  | c :: cs => s.isPrefixOf (c :: cs) || infixOf s cs

/-- Python `str.rstrip` restricted to one character, as in
`keyword.rstrip('(')`. -/
def rstripParen (s : List Char) : List Char :=
  (s.reverse.dropWhile (fun c => c = '(')).reverse

/-- The method ValidationService.validate_code (validation_service.py lines 134-213):
the sequence of length checks, dangerous-import scan, dangerous-keyword scan,
file-operation and network-operation pattern scans and structural-marker
checks, in source order, returning the stripped code on success. -/
def validate_code (code : List Char) : Except (List Char) (List Char) :=
  if code.isEmpty then .error "Code cannot be empty".toList
  else
    let c := pyStrip code
    if c.length < 10 then .error "Code is too short to be valid".toList
    else if 5000 < c.length then
      .error "Code exceeds maximum length of 5000 characters".toList
    else
      let lower := pyLower c
      match findDangerousImport lower with
      | some imp => .error ("Dangerous import detected: ".toList ++ imp)
      | none =>
        match dangerousKeywords.find? (fun kw => infixOf kw lower) with
        | some kw => .error ("Dangerous function detected: ".toList ++ rstripParen kw)
        | none =>
          if filePatterns.any (fun lit => filePatFound lit lower) then
            .error "File operations are not allowed in animation code".toList
          else if networkPatterns.any (fun p => infixOf p lower) then
            .error "Network operations are not allowed in animation code".toList
          else if !(infixOf "from manim import".toList lower
                    || infixOf "import manim".toList lower) then
            .error "Code must import manim".toList
          else if !(infixOf "class ".toList lower) then
            .error "Code must define a Scene class".toList
          else if !(infixOf "def construct".toList lower) then
            .error "Code must have a construct method".toList
          else .ok c

/-- Extension removal in `validate_filename` (the re.sub with the last-dot pattern): remove the
last dot and everything after it (the input has already been stripped, so
the `$`-before-trailing-newline subtlety cannot arise here). -/
def removeExtension (s : List Char) : List Char :=
  match s.reverse.dropWhile (fun c => c ≠ '.') with
  | [] => s
  | _ :: rest => rest.reverse

/-- The allowed filename characters of the class `[a-zA-Z0-9_-]`. -/
def isSafeFileChar (c : Char) : Bool :=
  c.isAlphanum || c = '_' || c = '-'

/-- The anchored character-class check of `validate_filename`: Python `$` (without re.M) matches
at the end of the string or just before one trailing newline, so a single
final newline is tolerated by this check. -/
def matchesSafeName (s : List Char) : Bool :=
  let core := if s.getLast? = some '\n' then s.dropLast else s
  !core.isEmpty && core.all isSafeFileChar

/-- The set reserved_names in `validate_filename`. -/
def reservedNames : List (List Char) :=
  ["con".toList, "prn".toList, "aux".toList, "nul".toList,
   "com1".toList, "com2".toList, "com3".toList, "com4".toList, "com5".toList,
   "com6".toList, "com7".toList, "com8".toList, "com9".toList,
   "lpt1".toList, "lpt2".toList, "lpt3".toList, "lpt4".toList, "lpt5".toList,
   "lpt6".toList, "lpt7".toList, "lpt8".toList, "lpt9".toList]

/-- The method ValidationService.validate_filename (validation_service.py lines
86-131): strip, drop the extension, length checks, character-class check,
reserved-name check, and the `file_` prefix for names starting with a
hyphen or underscore. -/
def validate_filename (filename : List Char) : Except (List Char) (List Char) :=
  if filename.isEmpty then .error "Filename cannot be empty".toList
  else
    let f1 := pyStrip filename
    let f2 := removeExtension f1
    if f2.length < 1 then .error "Filename must have content".toList
    else if 50 < f2.length then
      .error "Filename must be no more than 50 characters".toList
    else if !(matchesSafeName f2) then
      .error "Filename can only contain letters, numbers, underscores, and hyphens".toList
    else if reservedNames.contains (pyLower f2) then
      .error ("Filename is reserved and cannot be used".toList)
    else if f2.head? = some '-' || f2.head? = some '_' then
      .ok ("file_".toList ++ f2)
    else .ok f2

/-- The method ValidationService.check_rate_limit (validation_service.py lines
216-248) for one composite key `client_ip:endpoint`: `times` is the stored
deque for that key, `now` is `time.time()`. Old entries are popped from the
front while strictly older than the window; the request is rejected when at
least `limit` remain, else admitted and `now` is appended. Returns the
admission verdict and the deque left behind for the key. -/
def check_rate_limit (times : List ℚ) (now : ℚ) (limit : ℕ) (windowMinutes : ℚ) :
    Bool × List ℚ :=
  let windowSeconds := windowMinutes * 60
  let pruned := times.dropWhile (fun t => t < now - windowSeconds)
  if limit ≤ pruned.length then (false, pruned)
  else (true, pruned ++ [now])

/-! ## Job store (app/services/job_store.py, record type from app/models.py) -/

/-- The job status literal of `app.models.JobStore.status`. -/
inductive JStatus
  | queued
  | rendering
  | ready
  | error
deriving DecidableEq, Repr

/-- The `app.models.JobStore` record (a pydantic model in the source, NOT a
`dataclasses` dataclass — which matters for `_archive_job` below).
Timestamps are modelled as rationals; ISO-8601 strings compare the same way
chronologically. -/
structure StoredJob where
  id : String
  status : JStatus
  filename : String
  code : List Char
  created_at : ℚ
  updated_at : ℚ
  video_path : Option String
  error_message : Option (List Char)
deriving DecidableEq, Repr

/-- A `self._job_history` entry as `_archive_job` would build it: the job
snapshot plus `completed_at` and `total_processing_time`. (In the running
source no entry is ever built, because `_archive_job` raises on its first
statement — see `update_job` — but `cleanup_old_jobs` still filters the
list, so the shape matters.) -/
structure HistRecord where
  snapshot : StoredJob
  completed_at : ℚ
  total_processing_time : ℚ
deriving DecidableEq, Repr

/-- The EnhancedJobStore state: `jobs` is the dict of jobs in insertion
order (keys unique), `history` is `self._job_history`. -/
structure Store where
  jobs : List StoredJob
  history : List HistRecord
deriving DecidableEq, Repr

/-- The method EnhancedJobStore.get_job: dictionary lookup by id. -/
def getJob (st : Store) (jobId : String) : Option StoredJob :=
  st.jobs.find? (fun j => j.id = jobId)

/-- The keyword updates actually passed to `update_job` by the render
pipeline: a subset of the record fields (absent = field not mentioned). -/
structure JobUpdates where
  status : Option JStatus := none
  video_path : Option (Option String) := none
  error_message : Option (Option (List Char)) := none

/-- The field-assignment loop of `update_job` plus the unconditional
refresh of `updated_at`. -/
def applyUpdates (j : StoredJob) (u : JobUpdates) (now : ℚ) : StoredJob :=
  { j with
    status := u.status.getD j.status
    video_path := u.video_path.getD j.video_path
    error_message := u.error_message.getD j.error_message
    updated_at := now }

/-- Replace the record stored under `jobId` (dict assignment keeps the
key's insertion position). -/
def setJob (st : Store) (jobId : String) (newJob : StoredJob) : Store :=
  { st with jobs := st.jobs.map (fun k => if k.id = jobId then newJob else k) }

/-- The method EnhancedJobStore.update_job (job_store.py lines 68-104). The job's
fields are mutated first; then, if the status changed to a terminal value,
`_archive_job` runs — whose first statement `dataclasses.asdict(job)`
RAISES `TypeError`, because `app.models.JobStore` is a pydantic model, not
a dataclass. So every terminal transition leaves the record mutated and
raises out of `update_job` (`.error ()` here); nothing is ever appended to
history. Non-terminal updates return `.ok true`; a missing id returns
`.ok false`. -/
def update_job (st : Store) (jobId : String) (u : JobUpdates) (now : ℚ) :
    Store × Except Unit Bool :=
  match getJob st jobId with
  | none => (st, .ok false)
  | some job =>
    let newJob := applyUpdates job u now
    let st' := setJob st jobId newJob
    if job.status ≠ newJob.status ∧ (newJob.status = .ready ∨ newJob.status = .error) then
      (st', .error ())
    else (st', .ok true)

/-- The method EnhancedJobStore.get_jobs_by_status: filter in dict order. -/
def get_jobs_by_status (st : Store) (s : JStatus) : List StoredJob :=
  st.jobs.filter (fun j => j.status = s)

/-- One step of the (stable, ascending) sort by `created_at` used in
`get_queue_position`: insert before the first element with a
greater-or-equal key, keeping earlier-listed elements first on ties. -/
def insertByCreated (j : StoredJob) : List StoredJob → List StoredJob
  | [] => [j]
  | k :: ks =>
    if j.created_at ≤ k.created_at then j :: k :: ks
    else k :: insertByCreated j ks

/-- The sort queued_jobs.sort(key=lambda j: j.created_at) — Python list sort is
stable and ascending; this insertion sort computes the same (unique)
stable ascending reordering. -/
def sortByCreated : List StoredJob → List StoredJob
  | [] => []
  | j :: js => insertByCreated j (sortByCreated js)

/-- The expression next(i for i, j in enumerate(lst, 1) if p j) with StopIteration
mapped to `none`: the 1-based index of the first element satisfying `p`. -/
def findPos (p : StoredJob → Bool) : List StoredJob → Option ℕ
  | [] => none
  | j :: js => if p j then some 1 else (findPos p js).map (· + 1)

/-- The method EnhancedJobStore.get_queue_position (job_store.py lines 270-292):
`none` when the job is absent or not queued; otherwise the 1-based index of
the job among the queued jobs after the stable sort by `created_at`. -/
def get_queue_position (st : Store) (jobId : String) : Option ℕ :=
  match getJob st jobId with
  | none => none
  | some j =>
    if j.status ≠ .queued then none
    else findPos (fun k => k.id = jobId) (sortByCreated (get_jobs_by_status st .queued))

/-- The age test of `cleanup_old_jobs`:
`(current_time - created_at).total_seconds() / 3600 > max_age_hours`. -/
def jobTooOld (now : ℚ) (maxAgeHours : ℚ) (j : StoredJob) : Bool :=
  (now - j.created_at) / 3600 > maxAgeHours

/-- The history filter of `cleanup_old_jobs`: keep a record when
`job.get("completed_at", job["created_at"])` is strictly newer than the
cutoff `current_time - timedelta(hours=max_age_hours * 7)`; records built
by `_archive_job` always carry `completed_at`, so that is the key read. -/
def histKeeps (now : ℚ) (maxAgeHours : ℚ) (h : HistRecord) : Bool :=
  h.completed_at > now - maxAgeHours * 7 * 3600

/-- The method EnhancedJobStore.cleanup_old_jobs (job_store.py lines 143-178):
remove every job strictly older than `maxAgeHours` (via `remove_job`, which
preserves the order of the rest), keep only history records newer than the
7-times-longer cutoff, and return the number of jobs removed. -/
def cleanup_old_jobs (st : Store) (now : ℚ) (maxAgeHours : ℚ) : Store × ℕ :=
  let keep := st.jobs.filter (fun j => !jobTooOld now maxAgeHours j)
  let removedCount := (st.jobs.filter (fun j => jobTooOld now maxAgeHours j)).length
  let hist := st.history.filter (histKeeps now maxAgeHours)
  (⟨keep, hist⟩, removedCount)

/-! ## Render service (app/services/render_service.py) -/

/-- One attempt of `class\s+(\w+)\s*\(\s*Scene\s*\)` (the first pattern of
`_get_scene_class_name`) at the head of `cs`, returning the captured class
name. -/
def sceneMatchAt (cs : List Char) : Option (List Char) :=
  if "class".toList.isPrefixOf cs then
    let r := cs.drop 5
    match r with
    | c :: _ =>
      if isPySpace c then
        let r2 := r.dropWhile isPySpace
        let name := r2.takeWhile isWordChar
        if name.isEmpty then none
        else
          let r3 := (r2.drop name.length).dropWhile isPySpace
          match r3 with
          | '(' :: r4 =>
            let r5 := r4.dropWhile isPySpace
            if "Scene".toList.isPrefixOf r5 then
              let r6 := (r5.drop 5).dropWhile isPySpace
              if r6.head? = some ')' then some name else none
            else none
          | _ => none
      else none
    | [] => none
  else none

/-- One attempt of the fallback pattern `class\s+(\w+)\s*\(` at the head
of `cs`. -/
def anyClassMatchAt (cs : List Char) : Option (List Char) :=
  if "class".toList.isPrefixOf cs then
    let r := cs.drop 5
    match r with
    | c :: _ =>
      if isPySpace c then
        let r2 := r.dropWhile isPySpace
        let name := r2.takeWhile isWordChar
        if name.isEmpty then none
        else
          let r3 := (r2.drop name.length).dropWhile isPySpace
          match r3 with
          | '(' :: _ => some name
          | _ => none
      else none
    | [] => none
  else none

/-- The method RenderService._get_scene_class_name (render_service.py lines
102-128): leftmost match of the Scene pattern; else leftmost match of the
any-class fallback pattern; else raise. -/
def get_scene_class_name (code : List Char) : Except (List Char) (List Char) :=
  match searchFirst sceneMatchAt code with
  | some n => .ok n
  | none =>
    match searchFirst anyClassMatchAt code with
    | some n => .ok n
    | none => .error "No Scene class found in code".toList

/-- Outcome of the `manim` subprocess wait in `_execute_manim_render`. -/
inductive RenderOutcome
  | success
  | nonzeroExit
  | timeout
  | execExn
deriving DecidableEq, Repr

/-- The environment of one `_process_render_job` run: the results of its
effectful steps that are not determined by the job record itself. -/
structure RenderEnv where
  saveOk : Bool
  saveErrMsg : List Char
  renderOutcome : RenderOutcome
  videoExists : Bool
  unlinkOk : Bool
  videoPath : String
deriving DecidableEq, Repr

/-- The method RenderService._execute_manim_render (render_service.py lines
130-184): `true` only on exit code 0; a nonzero exit, an
`asyncio.TimeoutError` or any other exception all return `false` (they are
distinguished only in log lines, not in the return value). -/
def execute_manim_render (env : RenderEnv) : Bool :=
  env.renderOutcome = .success

/-- The observable result of one `_process_render_job` run. -/
structure ProcResult where
  store : Store
  statusWrites : List JStatus
  fileSaved : Bool
  fileDeleteAttempted : Bool
  fileDeleted : Bool
  escaped : Bool
deriving DecidableEq, Repr

/-- The terminal-update failure text: the outer exception handler records
`f"Render processing error: {str(e)}"` where `e` is the `TypeError` raised
by `dataclasses.asdict` inside `_archive_job`. -/
def asdictErrMsg : List Char :=
  "Render processing error: asdict() should be called on dataclass instances".toList

/-- The method RenderService._process_render_job (render_service.py lines 224-273),
with `update_job`'s archive `TypeError` (see `update_job`) propagated as in
Python. Paths:
* job id not found: log and return;
* save raises: outer handler writes `error`, whose terminal archive raises
  again and escapes the task;
* `_get_scene_class_name` raises: same as above, with the scratch file
  already on disk and never deleted (the `unlink` sits inside the `try`,
  after the render, not in a `finally`);
* render failed / artifact missing: the `error` update raises before the
  `unlink`; the outer handler's second `error` update does not change the
  status (error to error), so it succeeds and the task ends cleanly —
  scratch file not deleted;
* render succeeded: the `ready` update raises before the `unlink`; the
  outer handler's `error` update is a ready-to-error transition, raises
  again and escapes — scratch file not deleted.
`statusWrites` lists the status value of each `update_job` call in order. -/
def process_render_job (env : RenderEnv) (st : Store) (jobId : String) (now : ℚ) :
    ProcResult :=
  match getJob st jobId with
  | none => ⟨st, [], false, false, false, false⟩
  | some job =>
    let (st1, _) := update_job st jobId { status := some .rendering } now
    if !env.saveOk then
      let (st2, _) := update_job st1 jobId
        { status := some .error
          error_message := some (some ("Render processing error: ".toList ++ env.saveErrMsg)) } now
      ⟨st2, [.rendering, .error], false, false, false, true⟩
    else
      match get_scene_class_name job.code with
      | .error e =>
        let (st2, _) := update_job st1 jobId
          { status := some .error
            error_message := some (some ("Render processing error: ".toList ++ e)) } now
        ⟨st2, [.rendering, .error], true, false, false, true⟩
      | .ok _ =>
        if execute_manim_render env && env.videoExists then
          let (st2, _) := update_job st1 jobId
            { status := some .ready, video_path := some (some env.videoPath) } now
          let (st3, _) := update_job st2 jobId
            { status := some .error, error_message := some (some asdictErrMsg) } now
          ⟨st3, [.rendering, .ready, .error], true, false, false, true⟩
        else
          let (st2, _) := update_job st1 jobId
            { status := some .error
              error_message := some (some "Manim rendering failed".toList) } now
          let (st3, _) := update_job st2 jobId
            { status := some .error, error_message := some (some asdictErrMsg) } now
          ⟨st3, [.rendering, .error, .error], true, false, false, false⟩

/-! ## Spec-side comparison definitions -/

/-- Lexicographic order on identifiers (character lists), the natural
reading of the spec's "identifier ordering". -/
def charListLe : List Char → List Char → Bool
  | [], _ => true
  | _ :: _, [] => false
  | a :: as, b :: bs => if a < b then true else if a = b then charListLe as bs else false

/-- Modelled from the spec's words for C7 ("ordered by created_at
ascending; ties broken by identifier ordering"): insert by the
lexicographic key (created_at, id). -/
def insertByCreatedId (j : StoredJob) : List StoredJob → List StoredJob
  | [] => [j]
  | k :: ks =>
    if j.created_at < k.created_at
        ∨ (j.created_at = k.created_at ∧ charListLe j.id.toList k.id.toList) then
      j :: k :: ks
    else k :: insertByCreatedId j ks

/-- Sort by (created_at, id), the spec's ordering for queue positions. -/
def sortByCreatedId : List StoredJob → List StoredJob
  | [] => []
  | j :: js => insertByCreatedId j (sortByCreatedId js)

/-- Modelled from the spec's words for C7: `QueuePosition` with ties broken
by identifier ordering. -/
def queue_position_spec (st : Store) (jobId : String) : Option ℕ :=
  match getJob st jobId with
  | none => none
  | some j =>
    if j.status ≠ .queued then none
    else findPos (fun k => k.id = jobId) (sortByCreatedId (get_jobs_by_status st .queued))

/-- Modelled from the claim's words for C4: the rejection conditions the
claim lists (empty, length bounds, denylisted import, file-operation or
network-operation pattern, missing structural markers), as an acceptance
predicate. The claim omits the denylisted-function-call (keyword) scan. -/
def c4ListedOk (code : List Char) : Bool :=
  let c := pyStrip code
  let lower := pyLower c
  !code.isEmpty && decide (10 ≤ c.length) && decide (c.length ≤ 5000)
    && (findDangerousImport lower).isNone
    && filePatterns.all (fun lit => !filePatFound lit lower)
    && networkPatterns.all (fun p => !infixOf p lower)
    && (infixOf "from manim import".toList lower || infixOf "import manim".toList lower)
    && infixOf "class ".toList lower
    && infixOf "def construct".toList lower

/-! ## Concrete fixtures -/

/-- A well-formed submission: passes `validate_code` and has a Scene class. -/
def goodCode : List Char :=
  "from manim import *\nclass A(Scene):\n    def construct(self):\n        pass".toList

/-- A one-job store holding a queued job with well-formed code. -/
def stOne : Store :=
  ⟨[⟨"j1", .queued, "demo", goodCode, 0, 0, none, none⟩], []⟩

/-- Environment of a fully successful render run. -/
def envSuccess : RenderEnv :=
  ⟨true, [], .success, true, true, "demo.mp4"⟩

/-- Environment of a run whose subprocess wait times out. -/
def envTimeout : RenderEnv :=
  { envSuccess with renderOutcome := .timeout }

/-- Environment of a run whose subprocess exits nonzero. -/
def envNonzero : RenderEnv :=
  { envSuccess with renderOutcome := .nonzeroExit }

/-! ## Claim exhibits and counterexamples -/

/-- C1 (code bug exhibit): on a successful render of a queued job, the
status values written through `update_job` are rendering, ready, error —
the terminal `ready` is followed by a further transition to `error`
(triggered by `_archive_job`'s `dataclasses.asdict` TypeError), and the
stored job ends in `error`, violating the claimed forward-only,
terminal-immutable state machine. -/
theorem c1_ready_then_error :
    (process_render_job envSuccess stOne "j1" 0).statusWrites
        = [.rendering, .ready, .error]
    ∧ (getJob (process_render_job envSuccess stOne "j1" 0).store "j1").map StoredJob.status
        = some .error := by
  decide

/-- C5 (code bug exhibit): both on a successful render and on a timeout,
the scratch code file is written but its deletion is never even attempted —
the terminal `update_job` raises (archive TypeError) before the `unlink`
line, which is inside the `try`, not in a `finally`. -/
theorem c5_scratch_file_never_deleted :
    ((process_render_job envSuccess stOne "j1" 0).fileSaved = true
      ∧ (process_render_job envSuccess stOne "j1" 0).fileDeleteAttempted = false)
    ∧ ((process_render_job envTimeout stOne "j1" 0).fileSaved = true
      ∧ (process_render_job envTimeout stOne "j1" 0).fileDeleteAttempted = false) := by
  decide

/-- C6 counterexample: a timed-out run and a nonzero-exit run record
exactly the same diagnostic message on the job (both end in `error`); the
claimed timeout-specific recorded message does not exist. -/
theorem c6_messages_identical :
    (getJob (process_render_job envTimeout stOne "j1" 0).store "j1").map StoredJob.error_message
      = (getJob (process_render_job envNonzero stOne "j1" 0).store "j1").map StoredJob.error_message
    ∧ (getJob (process_render_job envTimeout stOne "j1" 0).store "j1").map StoredJob.status
      = some .error := by
  decide

/-- C2 counterexample: for code whose only class derives from a base other
than Scene (the text does not even contain "Scene"), entry-point extraction
returns that class name via its fallback pattern instead of failing with a
structural error. -/
theorem c2_fallback_guess :
    get_scene_class_name "class Foo(Thing): pass".toList = .ok "Foo".toList
    ∧ infixOf "Scene".toList "class Foo(Thing): pass".toList = false :=
  ⟨rfl, by decide⟩

/-- C7 counterexample: two queued jobs with equal `created_at`, inserted in
the order "b" then "a": the code reports position 2 for "a" (stable sort
keeps insertion order on ties) while the spec's identifier tie-break would
report position 1. -/
theorem c7_tie_break_differs :
    get_queue_position ⟨[⟨"b", .queued, "f", [], 0, 0, none, none⟩,
                         ⟨"a", .queued, "f", [], 0, 0, none, none⟩], []⟩ "a" = some 2
    ∧ queue_position_spec ⟨[⟨"b", .queued, "f", [], 0, 0, none, none⟩,
                            ⟨"a", .queued, "f", [], 0, 0, none, none⟩], []⟩ "a" = some 1 := by
  decide

/-- C9 counterexample: the input "ab\n.txt" is accepted and the returned
name is "ab\n", which contains a newline — not only letters, digits,
underscores and hyphens. (Python's `$` in the character-class check also
matches just before one trailing newline.) -/
theorem c9_newline_accepted :
    validate_filename "ab\n.txt".toList = .ok "ab\n".toList
    ∧ isSafeFileChar '\n' = false :=
  ⟨rfl, by decide⟩

/-- C4 counterexample: code that satisfies every rejection/acceptance
condition the claim lists (length bounds, no denylisted import, no
file-operation or network-operation pattern, all structural markers) is
nevertheless rejected, because of the denylisted-function-call scan the
claim's acceptance clause omits (here: `vars(`). -/
theorem c4_accepts_clause_false :
    c4ListedOk "from manim import *\nclass A(Scene):\n    def construct(self):\n        vars()".toList
        = true
    ∧ validate_code "from manim import *\nclass A(Scene):\n    def construct(self):\n        vars()".toList
        = .error "Dangerous function detected: vars".toList :=
  ⟨by decide, rfl⟩

/-! ## C8: cleanup semantics and idempotence -/

/-- A mixed store for witnesses: one fresh job, one over-age job, one
fresh history record, one over-age history record (times in seconds,
`maxAge` in hours). -/
def stMixed : Store :=
  ⟨[⟨"old", .queued, "f", [], 0, 0, none, none⟩,
    ⟨"new", .queued, "f", [], 34000, 34000, none, none⟩],
   [⟨⟨"h1", .error, "f", [], 0, 0, none, none⟩, 1000, 5⟩,
    ⟨⟨"h2", .ready, "f", [], 0, 0, none, none⟩, 30000, 5⟩]⟩

/-- C8: `cleanup_old_jobs` removes exactly the jobs strictly older than
`maxAge` hours and returns their number; every history record strictly
older than `7 * maxAge` hours is pruned and every strictly younger one is
kept; and the operation is idempotent — run again on its own output at the
same instant it removes nothing and changes nothing (and, being a total
function, it cannot raise). -/
theorem c8_cleanup_correct (st : Store) (now maxAge : ℚ) :
    (cleanup_old_jobs st now maxAge).2
        = (st.jobs.filter (fun j => jobTooOld now maxAge j)).length
    ∧ (cleanup_old_jobs st now maxAge).1.jobs
        = st.jobs.filter (fun j => !jobTooOld now maxAge j)
    ∧ (∀ h ∈ st.history, (now - h.completed_at) / 3600 > maxAge * 7 →
        h ∉ (cleanup_old_jobs st now maxAge).1.history)
    ∧ (∀ h ∈ st.history, (now - h.completed_at) / 3600 < maxAge * 7 →
        h ∈ (cleanup_old_jobs st now maxAge).1.history)
    ∧ cleanup_old_jobs (cleanup_old_jobs st now maxAge).1 now maxAge
        = ((cleanup_old_jobs st now maxAge).1, 0) := by
  refine ⟨rfl, rfl, ?_, ?_, ?_⟩
  · intro h hmem hage
    have h3600 : (0 : ℚ) < 3600 := by norm_num
    have hlt : maxAge * 7 * 3600 < now - h.completed_at := by
      have := (lt_div_iff₀ h3600).mp hage
      linarith
    simp only [cleanup_old_jobs, List.mem_filter, histKeeps, not_and, gt_iff_lt,
      decide_eq_true_eq]
    intro _ hk
    linarith
  · intro h hmem hage
    have h3600 : (0 : ℚ) < 3600 := by norm_num
    have hgt : now - h.completed_at < maxAge * 7 * 3600 := by
      have := (div_lt_iff₀ h3600).mp hage
      linarith
    simp only [cleanup_old_jobs, List.mem_filter, histKeeps, gt_iff_lt,
      decide_eq_true_eq]
    exact ⟨hmem, by linarith⟩
  · simp only [cleanup_old_jobs, List.filter_filter]
    refine Prod.ext ?_ ?_
    · refine congrArg₂ Store.mk ?_ ?_
      · exact List.filter_congr (fun j _ => by cases jobTooOld now maxAge j <;> simp)
      · exact List.filter_congr (fun h _ => by cases histKeeps now maxAge h <;> simp)
    · simp only
      rw [List.length_eq_zero]
      refine List.filter_eq_nil_iff.mpr (fun j hj => ?_)
      cases h : jobTooOld now maxAge j <;> simp [h]

/-- Witness for C8 at a concrete store: the second run at the same instant
removes nothing and leaves the store unchanged. -/
theorem c8_cleanup_witness :
    cleanup_old_jobs (cleanup_old_jobs stMixed 36000 1).1 36000 1
      = ((cleanup_old_jobs stMixed 36000 1).1, 0) :=
  (c8_cleanup_correct stMixed 36000 1).2.2.2.2

/-! ## C3: rate limiter -/

/-- On an ascending list, popping from the front while strictly below a
cutoff is the same as keeping everything at or above the cutoff. -/
theorem dropWhile_lt_eq_filter (c : ℚ) :
    ∀ (l : List ℚ), l.Pairwise (· ≤ ·) →
      l.dropWhile (fun t => t < c) = l.filter (fun t => c ≤ t)
  | [], _ => rfl
  | x :: xs, hs => by
    rcases List.pairwise_cons.mp hs with ⟨hx, hxs⟩
    by_cases hlt : x < c
    · rw [List.dropWhile_cons_of_pos (by simpa using hlt),
        List.filter_cons_of_neg (by simpa using not_le.mpr hlt)]
      exact dropWhile_lt_eq_filter c xs hxs
    · rw [List.dropWhile_cons_of_neg (by simpa using hlt),
        List.filter_cons_of_pos (by simpa using not_lt.mp hlt)]
      have : xs.filter (fun t => c ≤ t) = xs := by
        refine List.filter_eq_self.mpr (fun y hy => ?_)
        have := hx y hy
        have := not_lt.mp hlt
        simp only [decide_eq_true_eq]
        linarith
      rw [this]

/-- C3: for any key state, the limiter admits exactly when fewer than
`limit` of the recorded timestamps lie in the trailing window (of
`windowMinutes * 60` seconds), and the current timestamp is appended
exactly on admission (the surviving old timestamps are kept either way).
Hypotheses: timestamps were recorded in order by a monotone clock. -/
theorem c3_rate_limiter (times : List ℚ) (now windowMinutes : ℚ) (limit : ℕ)
    (hsorted : times.Pairwise (· ≤ ·)) (hpast : ∀ t ∈ times, t ≤ now) :
    ((check_rate_limit times now limit windowMinutes).1 = true
        ↔ (times.filter (fun t => now - windowMinutes * 60 ≤ t ∧ t ≤ now)).length < limit)
    ∧ (check_rate_limit times now limit windowMinutes).2
        = times.filter (fun t => now - windowMinutes * 60 ≤ t)
          ++ (if (check_rate_limit times now limit windowMinutes).1 then [now] else []) := by
  have hfeq : times.filter (fun t => decide (now - windowMinutes * 60 ≤ t ∧ t ≤ now))
      = times.filter (fun t => now - windowMinutes * 60 ≤ t) := by
    refine List.filter_congr (fun t ht => ?_)
    simp only [decide_eq_decide]
    exact ⟨fun h => h.1, fun h => ⟨h, hpast t ht⟩⟩
  have hdw := dropWhile_lt_eq_filter (now - windowMinutes * 60) times hsorted
  simp only [check_rate_limit, hdw, hfeq]
  by_cases hle : limit ≤ (times.filter (fun t => now - windowMinutes * 60 ≤ t)).length
  · rw [if_pos hle]
    exact ⟨iff_of_false (by simp) (Nat.not_lt.mpr hle), by simp⟩
  · rw [if_neg hle]
    exact ⟨iff_of_true rfl (Nat.lt_of_not_le hle), by simp⟩

/-- Witness for C3, the spec's scenario at limit 5, window 5 (minutes):
five spaced admissions succeed, the sixth inside the window is rejected,
and once the window has fully elapsed admission succeeds again. -/
theorem c3_rate_limiter_witness :
    (check_rate_limit [] 0 5 5).1 = true
    ∧ (check_rate_limit [0] 60 5 5).1 = true
    ∧ (check_rate_limit [0, 60] 120 5 5).1 = true
    ∧ (check_rate_limit [0, 60, 120] 180 5 5).1 = true
    ∧ (check_rate_limit [0, 60, 120, 180] 240 5 5).1 = true
    ∧ (check_rate_limit [0, 60, 120, 180, 240] 250 5 5).1 = false
    ∧ (check_rate_limit [0, 60, 120, 180, 240] 1000 5 5).1 = true := by
  have hs : List.Pairwise (· ≤ ·) ([0, 60, 120, 180, 240] : List ℚ) := by
    norm_num [List.pairwise_cons]
  have hp : ∀ t ∈ ([0, 60, 120, 180, 240] : List ℚ), t ≤ 250 := by
    intro t ht
    fin_cases ht <;> norm_num
  have h6 : (check_rate_limit [0, 60, 120, 180, 240] 250 5 5).1 = false := by
    have h := (c3_rate_limiter [0, 60, 120, 180, 240] 250 5 5 hs hp).1
    cases hb : (check_rate_limit [0, 60, 120, 180, 240] 250 5 5).1 with
    | false => rfl
    | true =>
      exfalso
      have hlen := h.mp hb
      rw [show ((250 : ℚ) - 5 * 60) = -50 by norm_num] at hlen
      norm_num [List.filter] at hlen
  exact ⟨by norm_num [check_rate_limit, List.dropWhile],
    by norm_num [check_rate_limit, List.dropWhile],
    by norm_num [check_rate_limit, List.dropWhile],
    by norm_num [check_rate_limit, List.dropWhile],
    by norm_num [check_rate_limit, List.dropWhile], h6,
    by norm_num [check_rate_limit, List.dropWhile]⟩

/-! ## C2: entry-point extraction -/

/-- Leftmost-match characterization of `searchFirst`, positive direction:
a hit at offset `i` with no hit at any earlier offset is what the scan
returns. -/
theorem searchFirst_eq_some_of (f : List Char → Option (List Char)) :
    ∀ (l : List Char) (i : ℕ) (r : List Char),
      f (l.drop i) = some r → (∀ j < i, f (l.drop j) = none) →
      searchFirst f l = some r
  | [], i, r, hi, _ => by
    simp only [List.drop_nil] at hi
    simpa [searchFirst] using hi
  | c :: cs, 0, r, hi, _ => by
    simp only [List.drop_zero] at hi
    simp [searchFirst, hi]
  | c :: cs, i + 1, r, hi, hmin => by
    have h0 : f (c :: cs) = none := by simpa using hmin 0 (Nat.succ_pos i)
    have htail : searchFirst f cs = some r := by
      refine searchFirst_eq_some_of f cs i r (by simpa using hi) (fun j hj => ?_)
      simpa using hmin (j + 1) (by omega)
    simp [searchFirst, h0, htail]

/-- Leftmost-match characterization of `searchFirst`, negative direction. -/
theorem searchFirst_eq_none_of (f : List Char → Option (List Char)) :
    ∀ (l : List Char), (∀ i, f (l.drop i) = none) → searchFirst f l = none
  | [], hall => by simpa [searchFirst] using hall 0
  | c :: cs, hall => by
    have h0 : f (c :: cs) = none := by simpa using hall 0
    have htail : searchFirst f cs = none :=
      searchFirst_eq_none_of f cs (fun i => by simpa using hall (i + 1))
    simp [searchFirst, h0, htail]

/-- C2 (amended): entry-point extraction returns the name captured by the
leftmost occurrence of the Scene pattern `class <name>(Scene)`; when that
pattern occurs nowhere it falls back to the leftmost occurrence of the
general pattern `class <name>(`, whatever the base class; it fails with the
structural error only when neither pattern occurs anywhere. -/
theorem c2_scene_extraction (code : List Char) :
    (∀ i n, sceneMatchAt (code.drop i) = some n →
        (∀ j < i, sceneMatchAt (code.drop j) = none) →
        get_scene_class_name code = .ok n)
    ∧ ((∀ i, sceneMatchAt (code.drop i) = none) →
        ∀ i n, anyClassMatchAt (code.drop i) = some n →
          (∀ j < i, anyClassMatchAt (code.drop j) = none) →
          get_scene_class_name code = .ok n)
    ∧ ((∀ i, sceneMatchAt (code.drop i) = none) →
        (∀ i, anyClassMatchAt (code.drop i) = none) →
        get_scene_class_name code = .error "No Scene class found in code".toList) := by
  refine ⟨?_, ?_, ?_⟩
  · intro i n hi hmin
    unfold get_scene_class_name
    rw [searchFirst_eq_some_of sceneMatchAt code i n hi hmin]
  · intro hnone i n hi hmin
    unfold get_scene_class_name
    rw [searchFirst_eq_none_of sceneMatchAt code hnone,
      searchFirst_eq_some_of anyClassMatchAt code i n hi hmin]
  · intro h1 h2
    unfold get_scene_class_name
    rw [searchFirst_eq_none_of sceneMatchAt code h1,
      searchFirst_eq_none_of anyClassMatchAt code h2]

/-- Witness for C2 on a concrete submission: the Scene pattern first
matches at offset 20 of `goodCode` and extraction returns that class name. -/
theorem c2_scene_extraction_witness :
    get_scene_class_name goodCode = .ok "A".toList :=
  (c2_scene_extraction goodCode).1 20 "A".toList (by decide) (by decide)

/-! ## C4: code validator acceptance characterization -/

/-- C4 (amended): `validate_code` accepts exactly the submissions that are
nonempty, whose stripped text is between 10 and 5000 characters, with no
denylisted import, no denylisted function-call keyword (the condition the
claim's acceptance clause omitted), no file-operation pattern, no
network-operation pattern, and all three structural markers; the accepted
value is the stripped text. Any input violating one of these is rejected
with an error. -/
theorem c4_validate_code_iff (code : List Char) :
    validate_code code = .ok (pyStrip code) ↔
      (code ≠ []
       ∧ 10 ≤ (pyStrip code).length ∧ (pyStrip code).length ≤ 5000
       ∧ findDangerousImport (pyLower (pyStrip code)) = none
       ∧ (∀ kw ∈ dangerousKeywords, infixOf kw (pyLower (pyStrip code)) = false)
       ∧ (∀ lit ∈ filePatterns, filePatFound lit (pyLower (pyStrip code)) = false)
       ∧ (∀ p ∈ networkPatterns, infixOf p (pyLower (pyStrip code)) = false)
       ∧ (infixOf "from manim import".toList (pyLower (pyStrip code)) = true
          ∨ infixOf "import manim".toList (pyLower (pyStrip code)) = true)
       ∧ infixOf "class ".toList (pyLower (pyStrip code)) = true
       ∧ infixOf "def construct".toList (pyLower (pyStrip code)) = true) := by
  simp only [validate_code]
  rcases himp : findDangerousImport (pyLower (pyStrip code)) with _ | imp
  · rcases hkw : List.find? (fun kw => infixOf kw (pyLower (pyStrip code)))
        dangerousKeywords with _ | kw
    · split_ifs with h1 h2 h3 hf hn hm hc hd
      · refine iff_of_false (by simp) ?_
        rintro ⟨hne, -⟩
        exact hne (by simpa using h1)
      · refine iff_of_false (by simp) ?_
        rintro ⟨-, hlen, -⟩
        omega
      · refine iff_of_false (by simp) ?_
        rintro ⟨-, -, hlen, -⟩
        omega
      · refine iff_of_false (by simp) ?_
        rintro ⟨-, -, -, -, -, hfp, -⟩
        rcases List.any_eq_true.mp hf with ⟨lit, hmem, hlit⟩
        rw [hfp lit hmem] at hlit
        exact Bool.false_ne_true hlit
      · refine iff_of_false (by simp) ?_
        rintro ⟨-, -, -, -, -, -, hnp, -⟩
        rcases List.any_eq_true.mp hn with ⟨p, hmem, hp⟩
        rw [hnp p hmem] at hp
        exact Bool.false_ne_true hp
      · refine iff_of_false (by simp) ?_
        rintro ⟨-, -, -, -, -, -, -, hmarks, -⟩
        have hm' : (infixOf "from manim import".toList (pyLower (pyStrip code))
            || infixOf "import manim".toList (pyLower (pyStrip code))) = false := by
          simpa using hm
        rcases hmarks with hA | hB
        · rw [hA] at hm'
          simp at hm'
        · rw [hB] at hm'
          simp at hm'
      · refine iff_of_false (by simp) ?_
        rintro ⟨-, -, -, -, -, -, -, -, hcl, -⟩
        have hcl' : infixOf "class ".toList (pyLower (pyStrip code)) = false := by
          simpa using hc
        rw [hcl] at hcl'
        exact Bool.noConfusion hcl'
      · refine iff_of_false (by simp) ?_
        rintro ⟨-, -, -, -, -, -, -, -, -, hco⟩
        have hco' : infixOf "def construct".toList (pyLower (pyStrip code)) = false := by
          simpa using hd
        rw [hco] at hco'
        exact Bool.noConfusion hco'
      · refine iff_of_true rfl
          ⟨by simpa using h1, by omega, by omega, rfl, ?_, ?_, ?_, ?_, ?_, ?_⟩
        · intro kw hmem
          have := List.find?_eq_none.mp hkw kw hmem
          simpa using this
        · intro lit hmem
          by_contra hlit
          exact hf (List.any_eq_true.mpr ⟨lit, hmem, by simpa using hlit⟩)
        · intro p hmem
          by_contra hp
          exact hn (List.any_eq_true.mpr ⟨p, hmem, by simpa using hp⟩)
        · by_cases hA : infixOf "from manim import".toList (pyLower (pyStrip code)) = true
          · exact Or.inl hA
          · have himpl : infixOf "from manim import".toList (pyLower (pyStrip code)) = false →
                infixOf "import manim".toList (pyLower (pyStrip code)) = true := by
              simpa using hm
            simp only [Bool.not_eq_true] at hA
            exact Or.inr (himpl hA)
        · simpa using hc
        · simpa using hd
    · refine iff_of_false (by split_ifs <;> simp) ?_
      rintro ⟨-, -, -, -, hkws, -⟩
      have hmem := List.mem_of_find?_eq_some hkw
      have hp := List.find?_some hkw
      rw [hkws kw hmem] at hp
      exact Bool.false_ne_true hp
  · refine iff_of_false (by split_ifs <;> simp) ?_
    rintro ⟨-, -, -, hnone, -⟩
    exact Option.some_ne_none imp hnone

/-- Witness for C4: a well-formed submission is accepted, via the
characterization. -/
theorem c4_validate_code_iff_witness :
    validate_code goodCode = .ok (pyStrip goodCode) :=
  (c4_validate_code_iff goodCode).mpr
    ⟨by decide, by decide, by decide, by decide, by decide, by decide, by decide,
      Or.inl (by decide), by decide, by decide⟩

/-! ## C9: filename validation output shape -/

/-- A list whose last element is known decomposes as its front plus that
element. -/
theorem eq_dropLast_append_of_getLast? {l : List Char} {c : Char}
    (h : l.getLast? = some c) : l = l.dropLast ++ [c] := by
  cases l with
  | nil => simp at h
  | cons a as =>
    have hne : (a :: as) ≠ [] := by simp
    rw [List.getLast?_eq_getLast _ hne] at h
    have hd := List.dropLast_append_getLast hne
    rw [Option.some_inj.mp h] at hd
    exact hd.symm

/-- The head of an append is the head of a nonempty left part. -/
theorem head?_append_left (l l' : List Char) (h : l ≠ []) :
    (l ++ l').head? = l.head? := by
  cases l with
  | nil => exact absurd rfl h
  | cons a as => rfl

/-- C9 (amended): every name returned by filename validation is a nonempty
string of letters, digits, underscores and hyphens possibly followed by one
trailing newline (tolerated because the character-class check's `$` also
matches just before a final newline), never beginning with a hyphen or
underscore (the `file_` prefix covers that case); and because the prefix is
added after the 50-character length check, the returned name can reach 55
characters, exceeding the documented 50-character bound. -/
theorem c9_filename_shape :
    (∀ s out, validate_filename s = .ok out →
        ∃ core, (out = core ∨ out = core ++ ['\n'])
          ∧ core ≠ [] ∧ core.all isSafeFileChar = true
          ∧ core.head? ≠ some '-' ∧ core.head? ≠ some '_'
          ∧ out.length ≤ 55)
    ∧ (∃ s out, validate_filename s = .ok out ∧ 50 < out.length ∧ out.length = 55) := by
  constructor
  · intro s out h
    simp only [validate_filename] at h
    split_ifs at h with h1 h2 h3 h4 h5 h6 <;> simp at h
    -- branch 1: the name started with a hyphen or underscore; out has the prefix
    · have hlen : (removeExtension (pyStrip s)).length ≤ 50 := by omega
      have hsafe : matchesSafeName (removeExtension (pyStrip s)) = true := by
        simpa using h4
      simp only [matchesSafeName] at hsafe
      by_cases hnl : (removeExtension (pyStrip s)).getLast? = some '\n'
      · rw [if_pos hnl] at hsafe
        rw [Bool.and_eq_true] at hsafe
        obtain ⟨hne, hall⟩ := hsafe
        have hsplit := eq_dropLast_append_of_getLast? hnl
        refine ⟨'f' :: 'i' :: 'l' :: 'e' :: '_' :: (removeExtension (pyStrip s)).dropLast,
          Or.inr ?_, by simp, ?_, by simp, by simp, ?_⟩
        · rw [← h]
          conv_lhs => rw [hsplit]
          simp
        · show ("file_".toList ++ (removeExtension (pyStrip s)).dropLast).all isSafeFileChar
            = true
          rw [List.all_append, Bool.and_eq_true]
          exact ⟨by decide, hall⟩
        · rw [← h]
          have hd : (removeExtension (pyStrip s)).dropLast.length + 1
              = (removeExtension (pyStrip s)).length := by
            conv_rhs => rw [hsplit]
            simp
          simp only [List.length_cons]
          omega
      · rw [if_neg hnl] at hsafe
        rw [Bool.and_eq_true] at hsafe
        obtain ⟨hne, hall⟩ := hsafe
        refine ⟨'f' :: 'i' :: 'l' :: 'e' :: '_' :: removeExtension (pyStrip s),
          Or.inl (by rw [← h]), by simp, ?_, by simp, by simp, ?_⟩
        · show ("file_".toList ++ removeExtension (pyStrip s)).all isSafeFileChar = true
          rw [List.all_append, Bool.and_eq_true]
          exact ⟨by decide, hall⟩
        · rw [← h]
          simp only [List.length_cons]
          omega
    -- branch 2: no prefix added; out is the checked name itself
    · have hlen : (removeExtension (pyStrip s)).length ≤ 50 := by omega
      have hsafe : matchesSafeName (removeExtension (pyStrip s)) = true := by
        simpa using h4
      have hhead : ¬((removeExtension (pyStrip s)).head? = some '-')
          ∧ ¬((removeExtension (pyStrip s)).head? = some '_') := by
        constructor <;> intro hcon <;> exact h6 (by simp [hcon])
      simp only [matchesSafeName] at hsafe
      by_cases hnl : (removeExtension (pyStrip s)).getLast? = some '\n'
      · rw [if_pos hnl] at hsafe
        rw [Bool.and_eq_true] at hsafe
        obtain ⟨hne, hall⟩ := hsafe
        have hcne : (removeExtension (pyStrip s)).dropLast ≠ [] := by
          intro hc
          rw [hc] at hne
          simp at hne
        have hsplit := eq_dropLast_append_of_getLast? hnl
        have hh : (removeExtension (pyStrip s)).head?
            = (removeExtension (pyStrip s)).dropLast.head? := by
          conv_lhs => rw [hsplit]
          exact head?_append_left _ _ hcne
        refine ⟨(removeExtension (pyStrip s)).dropLast, Or.inr ?_, hcne, hall, ?_, ?_, ?_⟩
        · rw [← h]
          exact hsplit
        · rw [← hh]
          exact hhead.1
        · rw [← hh]
          exact hhead.2
        · rw [← h]
          omega
      · rw [if_neg hnl] at hsafe
        rw [Bool.and_eq_true] at hsafe
        obtain ⟨hne, hall⟩ := hsafe
        have hcne : removeExtension (pyStrip s) ≠ [] := by
          intro hc
          rw [hc] at hne
          simp at hne
        refine ⟨removeExtension (pyStrip s), Or.inl (by rw [← h]), hcne, hall,
          hhead.1, hhead.2, ?_⟩
        rw [← h]
        omega
  · refine ⟨'_' :: List.replicate 49 'a',
      "file_".toList ++ ('_' :: List.replicate 49 'a'), rfl, by decide, by decide⟩

/-- Witness for C9 at a concrete accepted input. -/
theorem c9_filename_shape_witness :
    ∃ core, ("ab".toList = core ∨ "ab".toList = core ++ ['\n'])
      ∧ core ≠ [] ∧ core.all isSafeFileChar = true
      ∧ core.head? ≠ some '-' ∧ core.head? ≠ some '_'
      ∧ "ab".toList.length ≤ 55 :=
  c9_filename_shape.1 "ab.txt".toList "ab".toList rfl

/-! ## C10: any occurrence of http (case-insensitive) is rejected -/

/-- Substring containment agrees with the existence of a split. -/
theorem infixOf_iff_exists (s : List Char) :
    ∀ (l : List Char), infixOf s l = true ↔ ∃ u v, l = u ++ s ++ v
  | [] => by
    constructor
    · intro h
      have hs : s = [] := by simpa [infixOf, List.isEmpty_iff] using h
      exact ⟨[], [], by simp [hs]⟩
    · rintro ⟨u, v, huv⟩
      have hu : u = [] ∧ s ++ v = [] := by simpa using huv.symm
      have hs : s = [] := (List.append_eq_nil.mp hu.2).1
      simp [infixOf, hs]
  | c :: cs => by
    rw [infixOf]
    constructor
    · intro h
      rw [Bool.or_eq_true] at h
      rcases h with hp | hi
      · obtain ⟨t, ht⟩ := List.isPrefixOf_iff_prefix.mp hp
        exact ⟨[], t, by simp [← ht]⟩
      · obtain ⟨u, v, huv⟩ := (infixOf_iff_exists s cs).mp hi
        exact ⟨c :: u, v, by simp [huv]⟩
    · rintro ⟨u, v, huv⟩
      cases u with
      | nil =>
        have hpre : s.isPrefixOf (c :: cs) = true :=
          List.isPrefixOf_iff_prefix.mpr ⟨v, by simpa using huv.symm⟩
        simp [hpre]
      | cons b u' =>
        have hb : b = c ∧ cs = u' ++ s ++ v := by
          have := huv
          simp only [List.cons_append, List.cons.injEq] at this
          exact ⟨this.1.symm, this.2⟩
        have hi : infixOf s cs = true :=
          (infixOf_iff_exists s cs).mpr ⟨u', v, hb.2⟩
        simp [hi]

/-- A whitespace-free nonempty occurrence inside an all-whitespace prefix
plus remainder actually lies in the remainder. -/
theorem exists_split_drop_ws_left (s : List Char) (hne : s ≠ [])
    (hns : ∀ c ∈ s, isPySpace c = false) :
    ∀ (a t : List Char), (∀ c ∈ a, isPySpace c = true) →
      (∃ u v, a ++ t = u ++ s ++ v) → ∃ u v, t = u ++ s ++ v
  | [], t, _, h => by simpa using h
  | x :: a', t, hws, h => by
    obtain ⟨u, v, huv⟩ := h
    cases u with
    | nil =>
      simp only [List.nil_append] at huv
      cases s with
      | nil => exact absurd rfl hne
      | cons b s' =>
        have hbx : x = b := by
          have := huv
          simp only [List.cons_append, List.cons.injEq] at this
          exact this.1
        have h1 : isPySpace x = true := hws x (by simp)
        have h2 : isPySpace b = false := hns b (by simp)
        rw [hbx, h2] at h1
        exact Bool.noConfusion h1
    | cons y u' =>
      have htail : a' ++ t = u' ++ s ++ v := by
        have := huv
        simp only [List.cons_append, List.cons.injEq] at this
        exact this.2
      exact exists_split_drop_ws_left s hne hns a' t
        (fun c hc => hws c (by simp [hc])) ⟨u', v, htail⟩

/-- The symmetric fact for an all-whitespace suffix, via reversal. -/
theorem exists_split_drop_ws_right (s : List Char) (hne : s ≠ [])
    (hns : ∀ c ∈ s, isPySpace c = false) (t b : List Char)
    (hws : ∀ c ∈ b, isPySpace c = true)
    (h : ∃ u v, t ++ b = u ++ s ++ v) : ∃ u v, t = u ++ s ++ v := by
  obtain ⟨u, v, huv⟩ := h
  have hrev : b.reverse ++ t.reverse = v.reverse ++ s.reverse ++ u.reverse := by
    have := congrArg List.reverse huv
    simpa [List.reverse_append, List.append_assoc] using this
  have hsr : s.reverse ≠ [] := by simpa using hne
  have hnsr : ∀ c ∈ s.reverse, isPySpace c = false := fun c hc =>
    hns c (List.mem_reverse.mp hc)
  have hwsr : ∀ c ∈ b.reverse, isPySpace c = true := fun c hc =>
    hws c (List.mem_reverse.mp hc)
  obtain ⟨u2, v2, h2⟩ := exists_split_drop_ws_left s.reverse hsr hnsr
    b.reverse t.reverse hwsr ⟨v.reverse, u.reverse, by simpa [List.append_assoc] using hrev⟩
  refine ⟨v2.reverse, u2.reverse, ?_⟩
  have := congrArg List.reverse h2
  simpa [List.reverse_append, List.append_assoc] using this

/-- Decomposition of a string into leading whitespace, its strip, and
trailing whitespace. -/
theorem pyStrip_decomp (l : List Char) :
    ∃ a b, l = a ++ pyStrip l ++ b
      ∧ (∀ c ∈ a, isPySpace c = true) ∧ (∀ c ∈ b, isPySpace c = true) := by
  refine ⟨l.takeWhile isPySpace,
    ((l.dropWhile isPySpace).reverse.takeWhile isPySpace).reverse, ?_, ?_, ?_⟩
  · conv_lhs => rw [← List.takeWhile_append_dropWhile (p := isPySpace) (l := l)]
    rw [List.append_assoc]
    congr 1
    conv_lhs => rw [← List.reverse_reverse (l.dropWhile isPySpace)]
    conv_lhs =>
      rw [← List.takeWhile_append_dropWhile (p := isPySpace)
        (l := (l.dropWhile isPySpace).reverse)]
    rw [List.reverse_append]
    rfl
  · exact fun c hc => List.mem_takeWhile_imp hc
  · exact fun c hc => List.mem_takeWhile_imp (List.mem_reverse.mp hc)

/-- Lowercasing fixes whitespace characters. -/
theorem toLower_of_pySpace (c : Char) (h : isPySpace c = true) :
    Char.toLower c = c := by
  have h' : ((((c = ' ' ∨ c = '\t') ∨ c = '\n') ∨ c = '\r') ∨ c = '\x0b') ∨ c = '\x0c' := by
    simpa [isPySpace] using h
  rcases h' with ((((h' | h') | h') | h') | h') | h' <;> rw [h'] <;> decide

/-- Lowercasing an all-whitespace block changes nothing. -/
theorem pyLower_of_all_space :
    ∀ (a : List Char), (∀ c ∈ a, isPySpace c = true) → pyLower a = a
  | [], _ => rfl
  | c :: cs, h => by
    rw [pyLower, List.map_cons, toLower_of_pySpace c (h c (by simp))]
    have := pyLower_of_all_space cs (fun d hd => h d (by simp [hd]))
    rw [pyLower] at this
    rw [this]

/-- A whitespace-free occurrence in the lowercased text survives stripping:
it also occurs in the lowercased stripped text. -/
theorem infixOf_pyLower_pyStrip (s code : List Char) (hne : s ≠ [])
    (hns : ∀ c ∈ s, isPySpace c = false)
    (h : infixOf s (pyLower code) = true) :
    infixOf s (pyLower (pyStrip code)) = true := by
  obtain ⟨a, b, hdec, hwa, hwb⟩ := pyStrip_decomp code
  have hlow : pyLower code = a ++ (pyLower (pyStrip code) ++ b) := by
    conv_lhs => rw [hdec]
    rw [pyLower, List.map_append, List.map_append]
    rw [← pyLower, ← pyLower, ← pyLower,
      pyLower_of_all_space a hwa, pyLower_of_all_space b hwb, List.append_assoc]
  have h1 := (infixOf_iff_exists s (pyLower code)).mp h
  rw [hlow] at h1
  have h2 := exists_split_drop_ws_left s hne hns a (pyLower (pyStrip code) ++ b) hwa h1
  have h3 := exists_split_drop_ws_right s hne hns (pyLower (pyStrip code)) b hwb h2
  exact (infixOf_iff_exists s (pyLower (pyStrip code))).mpr h3

/-- If the validator accepts, the network-pattern scan found nothing. -/
theorem validate_code_ok_network (code v : List Char)
    (h : validate_code code = .ok v) :
    (networkPatterns.any (fun p => infixOf p (pyLower (pyStrip code)))) = false := by
  by_contra hcon
  rw [Bool.not_eq_false] at hcon
  simp only [validate_code] at h
  rcases he1 : findDangerousImport (pyLower (pyStrip code)) with _ | imp
  · rw [he1] at h
    rcases he2 : List.find? (fun kw => infixOf kw (pyLower (pyStrip code))) dangerousKeywords
        with _ | kw
    · rw [he2] at h
      split_ifs at h
    · rw [he2] at h
      split_ifs at h
  · rw [he1] at h
    split_ifs at h

/-- C10: any submission whose lowercased text contains the four characters
http — inside a comment, a string literal or a longer identifier alike — is
rejected by `validate_code` with some error, whether or not the code
performs any network operation. -/
theorem c10_http_rejected (code : List Char)
    (h : infixOf "http".toList (pyLower code) = true) :
    ∃ msg, validate_code code = .error msg := by
  cases hv : validate_code code with
  | error m => exact ⟨m, rfl⟩
  | ok v =>
    exfalso
    have hnet := validate_code_ok_network code v hv
    have hhttp : infixOf "http".toList (pyLower (pyStrip code)) = true :=
      infixOf_pyLower_pyStrip "http".toList code (by decide) (by decide) h
    have hany : (networkPatterns.any (fun p => infixOf p (pyLower (pyStrip code)))) = true :=
      List.any_eq_true.mpr ⟨"http".toList, by decide, hhttp⟩
    rw [hnet] at hany
    exact Bool.noConfusion hany

/-- Witness for C10: code containing only an uppercase HTTP in a string
literal is rejected. -/
theorem c10_http_rejected_witness :
    ∃ msg, validate_code "x = 'HTTP x'".toList = .error msg :=
  c10_http_rejected "x = 'HTTP x'".toList (by decide)

/-! ## C6: failure diagnostics -/

/-- Replacing the record with a matching id keeps it findable: the rewrite
map touches exactly the stored entry. -/
theorem find?_map_update :
    ∀ (l : List StoredJob) (jobId : String) (n : StoredJob), n.id = jobId →
      (l.find? (fun k => k.id = jobId)).isSome = true →
      (l.map (fun k => if k.id = jobId then n else k)).find? (fun k => k.id = jobId)
        = some n
  | [], _, _, _, hex => by simp at hex
  | k :: ks, jobId, n, hn, hex => by
    by_cases hk : k.id = jobId
    · simp [List.find?_cons, hk, hn]
    · rw [List.map_cons, if_neg hk, List.find?_cons_of_neg _ (by simpa using hk)]
      rw [List.find?_cons_of_neg _ (by simpa using hk)] at hex
      exact find?_map_update ks jobId n hn hex

/-- Looking a job up after `update_job` returns the updated record
(whether or not the terminal-archive TypeError fired, the mutation has
already been committed). -/
theorem getJob_update_job_self (st : Store) (jobId : String) (u : JobUpdates) (now : ℚ) :
    getJob (update_job st jobId u now).1 jobId
      = (getJob st jobId).map (fun j => applyUpdates j u now) := by
  unfold update_job
  cases hj : getJob st jobId with
  | none => simp [hj]
  | some j =>
    have hid : j.id = jobId := by
      have := List.find?_some hj
      simpa using this
    have hset : getJob (setJob st jobId (applyUpdates j u now)) jobId
        = some (applyUpdates j u now) := by
      unfold getJob setJob
      exact find?_map_update st.jobs jobId (applyUpdates j u now)
        (by simp [applyUpdates, hid]) (by unfold getJob at hj; simp [hj])
    dsimp only
    split_ifs <;> simpa using hset

/-- C6 (amended): when rendering fails the job does transition to `error`
with a recorded diagnostic message, but the recorded message does not
distinguish a timeout from a nonzero exit: both failure paths first record
"Manim rendering failed" and then — because the terminal update's archive
step raises — end with the identical asdict diagnostic; the two causes are
distinguished only in log lines, which are not part of the job record. -/
theorem c6_failure_message (env : RenderEnv) (st : Store) (jobId : String) (now : ℚ)
    (j : StoredJob) (hj : getJob st jobId = some j)
    (hsave : env.saveOk = true)
    (hscene : ∃ n, get_scene_class_name j.code = .ok n)
    (hfail : env.renderOutcome = .timeout ∨ env.renderOutcome = .nonzeroExit) :
    ∃ j', getJob (process_render_job env st jobId now).store jobId = some j'
      ∧ j'.status = .error
      ∧ j'.error_message = some asdictErrMsg := by
  obtain ⟨n, hn⟩ := hscene
  have hexec : execute_manim_render env = false := by
    rcases hfail with h | h <;> simp [execute_manim_render, h]
  simp only [process_render_job, hj, hsave, hn, hexec, Bool.not_true, Bool.false_eq_true,
    if_false, Bool.false_and, Bool.and_eq_true]
  simp only [getJob_update_job_self, hj, Option.map_some]
  exact ⟨_, rfl, rfl, rfl⟩

/-- Witness for C6 at a concrete store and a timed-out run. -/
theorem c6_failure_message_witness :
    ∃ j', getJob (process_render_job envTimeout stOne "j1" 0).store "j1" = some j'
      ∧ j'.status = .error
      ∧ j'.error_message = some asdictErrMsg :=
  c6_failure_message envTimeout stOne "j1" 0 _ rfl rfl ⟨"A".toList, rfl⟩ (Or.inl rfl)

/-! ## C7: queue position -/

/-- Inserting preserves element counts. -/
theorem countP_insertByCreated (x : StoredJob) (p : StoredJob → Bool) :
    ∀ l, (insertByCreated x l).countP p = ((x :: l).countP p)
  | [] => rfl
  | k :: ks => by
    rw [insertByCreated]
    split_ifs with hle
    · rfl
    · rw [List.countP_cons, countP_insertByCreated x p ks, List.countP_cons,
        List.countP_cons, List.countP_cons]
      omega

/-- Sorting preserves element counts. -/
theorem countP_sortByCreated (p : StoredJob → Bool) :
    ∀ l, (sortByCreated l).countP p = l.countP p
  | [] => rfl
  | j :: js => by
    rw [sortByCreated, countP_insertByCreated, List.countP_cons, List.countP_cons,
      countP_sortByCreated p js]

/-- Membership through insertion. -/
theorem mem_insertByCreated (x y : StoredJob) :
    ∀ l, y ∈ insertByCreated x l ↔ y = x ∨ y ∈ l
  | [] => by simp [insertByCreated]
  | k :: ks => by
    rw [insertByCreated]
    split_ifs with hle
    · simp
    · rw [List.mem_cons, mem_insertByCreated x y ks]
      simp only [List.mem_cons]
      tauto

/-- Membership through sorting. -/
theorem mem_sortByCreated (y : StoredJob) :
    ∀ l, y ∈ sortByCreated l ↔ y ∈ l
  | [] => Iff.rfl
  | j :: js => by
    rw [sortByCreated, mem_insertByCreated, mem_sortByCreated y js]
    exact (List.mem_cons).symm

/-- Insertion keeps the list sorted by `created_at`. -/
theorem sorted_insertByCreated (x : StoredJob) :
    ∀ l, l.Pairwise (fun a b => a.created_at ≤ b.created_at) →
      (insertByCreated x l).Pairwise (fun a b => a.created_at ≤ b.created_at)
  | [], _ => by simp [insertByCreated]
  | k :: ks, hp => by
    rcases List.pairwise_cons.mp hp with ⟨hk, hks⟩
    rw [insertByCreated]
    split_ifs with hle
    · refine List.pairwise_cons.mpr ⟨?_, hp⟩
      intro b hb
      rcases List.mem_cons.mp hb with hb | hb
      · rw [hb]
        exact hle
      · exact le_trans hle (hk b hb)
    · refine List.pairwise_cons.mpr ⟨?_, sorted_insertByCreated x ks hks⟩
      intro b hb
      rcases (mem_insertByCreated x b ks).mp hb with hb | hb
      · rw [hb]
        exact le_of_lt (lt_of_not_le hle)
      · exact hk b hb

/-- The insertion sort is sorted by `created_at`. -/
theorem sorted_sortByCreated :
    ∀ l, (sortByCreated l).Pairwise (fun a b => a.created_at ≤ b.created_at)
  | [] => List.Pairwise.nil
  | j :: js => sorted_insertByCreated j (sortByCreated js) (sorted_sortByCreated js)

/-- A found position comes from a member satisfying the predicate. -/
theorem findPos_some_mem (p : StoredJob → Bool) :
    ∀ l (m : ℕ), findPos p l = some m → ∃ k ∈ l, p k = true
  | [], m, h => by simp [findPos] at h
  | k :: ks, m, h => by
    rw [findPos] at h
    by_cases hpk : p k = true
    · exact ⟨k, by simp, hpk⟩
    · rw [if_neg hpk] at h
      obtain ⟨m', hm', -⟩ := Option.map_eq_some'.mp h
      obtain ⟨k', hk', hp'⟩ := findPos_some_mem p ks m' hm'
      exact ⟨k', by simp [hk'], hp'⟩

/-- Inserting a fresh element into a sorted list places it after exactly
the strictly smaller keys: its 1-based position is that count plus one. -/
theorem findPos_insert_self (x : StoredJob) (p : StoredJob → Bool) (hx : p x = true) :
    ∀ l, l.Pairwise (fun a b => a.created_at ≤ b.created_at) →
      (∀ k ∈ l, p k = false) →
      findPos p (insertByCreated x l)
        = some (l.countP (fun k => k.created_at < x.created_at) + 1)
  | [], _, _ => by simp [insertByCreated, findPos, hx]
  | k :: ks, hpair, hnone => by
    rcases List.pairwise_cons.mp hpair with ⟨hk, hks⟩
    rw [insertByCreated]
    split_ifs with hle
    · rw [findPos, if_pos hx]
      have hcnt : (k :: ks).countP (fun m => m.created_at < x.created_at) = 0 := by
        rw [List.countP_eq_zero]
        intro a ha
        rcases List.mem_cons.mp ha with ha | ha
        · rw [ha]
          simpa using not_lt.mpr hle
        · simpa using not_lt.mpr (le_trans hle (hk a ha))
      rw [hcnt]
    · rw [findPos, if_neg (by simp [hnone k (by simp)]),
        findPos_insert_self x p hx ks hks (fun m hm => hnone m (by simp [hm])),
        List.countP_cons_of_pos _ _ (by simpa using lt_of_not_le hle)]
      rfl

/-- Inserting a non-matching element shifts a found position by one exactly
when the new element sorts no later than the matched key (stability: ties go
after the existing elements). -/
theorem findPos_insert_shift (x j : StoredJob) (p : StoredJob → Bool)
    (hx : p x = false) :
    ∀ l (m : ℕ), l.Pairwise (fun a b => a.created_at ≤ b.created_at) →
      (∀ k ∈ l, p k = true → k.created_at = j.created_at) →
      findPos p l = some m →
      findPos p (insertByCreated x l)
        = some (if x.created_at ≤ j.created_at then m + 1 else m)
  | [], m, _, _, hm => by simp [findPos] at hm
  | k :: ks, m, hpair, hkey, hm => by
    rcases List.pairwise_cons.mp hpair with ⟨hk, hks⟩
    rw [insertByCreated]
    by_cases hle : x.created_at ≤ k.created_at
    · rw [if_pos hle]
      have hxj : x.created_at ≤ j.created_at := by
        obtain ⟨k', hk', hp'⟩ := findPos_some_mem p (k :: ks) m hm
        have hkey' := hkey k' hk' hp'
        rcases List.mem_cons.mp hk' with h' | h'
        · rw [← hkey', h']
          exact hle
        · exact le_trans hle (le_of_le_of_eq (hk k' h') hkey')
      rw [if_pos hxj, findPos, if_neg (by simp [hx]), hm]
      rfl
    · rw [if_neg hle]
      by_cases hpk : p k = true
      · have hm1 : m = 1 := by
          rw [findPos, if_pos hpk] at hm
          simpa using hm.symm
        have hkj : k.created_at = j.created_at := hkey k (by simp) hpk
        rw [if_neg (by rw [← hkj]; exact hle), findPos, if_pos hpk, hm1]
      · rw [findPos, if_neg hpk] at hm
        obtain ⟨m', hm', hmm⟩ := Option.map_eq_some'.mp hm
        have hrec := findPos_insert_shift x j p hx ks m' hks
          (fun a ha hpa => hkey a (by simp [ha]) hpa) hm'
        rw [findPos, if_neg hpk, hrec]
        split_ifs with hcond
        · show some (m' + 1 + 1) = some (m + 1)
          exact congrArg some (by omega)
        · show some (m' + 1) = some m
          exact congrArg some (by omega)

/-- Position of a distinguished element in the stable sort: one past the
number of strictly earlier keys plus the number of equal keys that came
before it in the original order. -/
theorem findPos_sortByCreated_stable (j : StoredJob) :
    ∀ (pre post : List StoredJob),
      (∀ k ∈ pre, k.id ≠ j.id) → (∀ k ∈ post, k.id ≠ j.id) →
      findPos (fun k => k.id = j.id) (sortByCreated (pre ++ j :: post))
        = some ((pre ++ j :: post).countP (fun k => k.created_at < j.created_at)
            + pre.countP (fun k => k.created_at = j.created_at) + 1)
  | [], post, _, hpost => by
    rw [List.nil_append, sortByCreated]
    rw [findPos_insert_self j (fun k => k.id = j.id) (by simp)
      (sortByCreated post) (sorted_sortByCreated post)
      (fun k hk => by
        have hkid := hpost k ((mem_sortByCreated k post).mp hk)
        simpa using hkid)]
    rw [countP_sortByCreated, List.countP_cons]
    simp
  | x :: pre', post, hpre, hpost => by
    have hxid : x.id ≠ j.id := hpre x (by simp)
    have hrec := findPos_sortByCreated_stable j pre' post
      (fun k hk => hpre k (by simp [hk])) hpost
    rw [List.cons_append, sortByCreated]
    rw [findPos_insert_shift x j (fun k => k.id = j.id) (by simpa using hxid)
      (sortByCreated (pre' ++ j :: post))
      ((pre' ++ j :: post).countP (fun k => k.created_at < j.created_at)
        + pre'.countP (fun k => k.created_at = j.created_at) + 1)
      (sorted_sortByCreated _)
      (fun k hk hpk => by
        have hkmem := (mem_sortByCreated k _).mp hk
        rcases List.mem_append.mp hkmem with hk' | hk'
        · exact absurd (by simpa using hpk) (hpre k (by simp [hk']))
        · rcases List.mem_cons.mp hk' with hk'' | hk''
          · rw [hk'']
          · exact absurd (by simpa using hpk) (hpost k hk''))
      hrec]
    rcases lt_trichotomy x.created_at j.created_at with hlt | heq | hgt
    · rw [if_pos (le_of_lt hlt),
        List.countP_cons_of_pos _ _ (by simpa using hlt),
        List.countP_cons_of_neg _ _ (by simpa using ne_of_lt hlt)]
      exact congrArg some (by omega)
    · rw [if_pos (le_of_eq heq),
        List.countP_cons_of_neg _ _ (by simpa using not_lt.mpr (le_of_eq heq.symm)),
        List.countP_cons_of_pos _ _ (by simpa using heq)]
      exact congrArg some (by omega)
    · rw [if_neg (not_le.mpr hgt),
        List.countP_cons_of_neg _ _ (by simpa using not_lt.mpr (le_of_lt hgt)),
        List.countP_cons_of_neg _ _ (by simpa using ne_of_gt hgt)]

/-- A search skips a prefix on which the predicate is false. -/
theorem find?_append_of_none (p : StoredJob → Bool) :
    ∀ (pre l : List StoredJob), (∀ k ∈ pre, p k = false) →
      (pre ++ l).find? p = l.find? p
  | [], l, _ => rfl
  | k :: pre', l, h => by
    rw [List.cons_append, List.find?_cons_of_neg _ (by simp [h k (by simp)])]
    exact find?_append_of_none p pre' l (fun a ha => h a (by simp [ha]))

/-- C7 (amended): `get_queue_position` returns none for an absent or
non-queued job; for a queued job (ids unique, as the dict guarantees) it
returns one plus the number of queued jobs with strictly earlier
`created_at` plus the number of queued jobs with equal `created_at` that
were inserted into the store earlier — i.e. ties are broken by insertion
order (Python's stable sort), not by identifier ordering. -/
theorem c7_queue_position (st : Store)
    (huniq : (st.jobs.map (fun k => k.id)).Nodup) :
    (∀ jobId, getJob st jobId = none → get_queue_position st jobId = none)
    ∧ (∀ jobId j, getJob st jobId = some j → j.status ≠ .queued →
        get_queue_position st jobId = none)
    ∧ (∀ pre j post, st.jobs = pre ++ j :: post → j.status = .queued →
        get_queue_position st j.id
          = some (st.jobs.countP
                (fun k => k.status = .queued ∧ k.created_at < j.created_at)
              + pre.countP
                (fun k => k.status = .queued ∧ k.created_at = j.created_at) + 1)) := by
  refine ⟨?_, ?_, ?_⟩
  · intro jobId hnone
    unfold get_queue_position
    rw [hnone]
  · intro jobId j hget hst
    unfold get_queue_position
    rw [hget]
    dsimp only
    rw [if_pos hst]
  · intro pre j post hsplit hq
    have hmap : (pre.map (fun k => k.id) ++ j.id :: post.map (fun k => k.id)).Nodup := by
      rw [hsplit] at huniq
      simpa using huniq
    have hpre : ∀ k ∈ pre, k.id ≠ j.id := by
      intro k hk heq
      exact List.disjoint_of_nodup_append hmap
        (List.mem_map.mpr ⟨k, hk, heq⟩) (by simp)
    have hpost : ∀ k ∈ post, k.id ≠ j.id := by
      intro k hk heq
      have h2 := (List.nodup_append.mp hmap).2.1
      rw [List.nodup_cons] at h2
      exact h2.1 (List.mem_map.mpr ⟨k, hk, heq.symm ▸ rfl⟩)
    have hget : getJob st j.id = some j := by
      unfold getJob
      rw [hsplit, find?_append_of_none _ pre _ (fun k hk => by simp [hpre k hk]),
        List.find?_cons_of_pos _ (by simp)]
    have hfilter : st.jobs.filter (fun k => k.status = JStatus.queued)
        = pre.filter (fun k => k.status = JStatus.queued)
          ++ j :: post.filter (fun k => k.status = JStatus.queued) := by
      rw [hsplit, List.filter_append, List.filter_cons_of_pos (by simp [hq])]
    have hmain := findPos_sortByCreated_stable j
      (pre.filter (fun k => k.status = JStatus.queued))
      (post.filter (fun k => k.status = JStatus.queued))
      (fun k hk => hpre k (List.mem_of_mem_filter hk))
      (fun k hk => hpost k (List.mem_of_mem_filter hk))
    rw [← hfilter] at hmain
    have hc1 : (st.jobs.filter (fun k => k.status = JStatus.queued)).countP
          (fun k => k.created_at < j.created_at)
        = st.jobs.countP (fun k => k.status = .queued ∧ k.created_at < j.created_at) := by
      rw [List.countP_filter]
      refine List.countP_congr (fun k _ => ?_)
      by_cases h1 : k.status = JStatus.queued <;>
        by_cases h2 : k.created_at < j.created_at <;> simp [h1, h2]
    have hc2 : (pre.filter (fun k => k.status = JStatus.queued)).countP
          (fun k => k.created_at = j.created_at)
        = pre.countP (fun k => k.status = .queued ∧ k.created_at = j.created_at) := by
      rw [List.countP_filter]
      refine List.countP_congr (fun k _ => ?_)
      by_cases h1 : k.status = JStatus.queued <;>
        by_cases h2 : k.created_at = j.created_at <;> simp [h1, h2]
    unfold get_queue_position
    rw [hget]
    dsimp only
    rw [if_neg (by simp [hq])]
    simp only [get_jobs_by_status]
    rw [hmain, hc1, hc2]

/-- A three-job store with a tie in `created_at` between the first and the
last insertion. -/
def stThree : Store :=
  ⟨[⟨"a", .queued, "f", [], 5, 0, none, none⟩,
    ⟨"b", .queued, "f", [], 3, 0, none, none⟩,
    ⟨"c", .queued, "f", [], 5, 0, none, none⟩], []⟩

/-- Witness for C7: job "c" (created at 5, tied with "a" but inserted
later) sits at position 3: one earlier key ("b" at 3) plus one equal key
inserted earlier ("a") plus one. -/
theorem c7_queue_position_witness : get_queue_position stThree "c" = some 3 := by
  have h := (c7_queue_position stThree (by decide)).2.2
    [⟨"a", .queued, "f", [], 5, 0, none, none⟩,
     ⟨"b", .queued, "f", [], 3, 0, none, none⟩]
    ⟨"c", .queued, "f", [], 5, 0, none, none⟩ [] rfl rfl
  rw [h]
  decide

end AITutor
